import Mathlib

/-!
Verification of the sentinel-core client orchestration layer.

Shallow embedding of the client-side hooks of the repository:
* the pure message-reconciliation functions of
  `frontend/src/hooks/useChatSession.ts` (both variants in the file),
* the SSE stream-decoding loops of `streamQuery` (first and second variant),
* the background-task poller of `frontend/src/hooks/useTaskPolling.ts`,
* the attachment-lifecycle operations (`handleAttachFile`,
  `handleRequestPromotion`, and the polling callbacks).

JavaScript strings are modelled as `List Char`; `JSON.parse` is modelled by
an abstract `parse : List Char → Option SseEvent` parameter, where `none`
models a parse exception.  Machine-level concerns (real time, the React
render cycle) are modelled by explicit event lists where needed.
-/

namespace Sentinel

/-- Message role, `role ∈ {user, assistant}` in `useChatSession.ts`. -/
inductive Role
  | user
  | assistant
deriving DecidableEq, Repr

/-- Tool-call status, `status ∈ {running, completed}`. -/
inductive ToolStatus
  | running
  | completed
deriving DecidableEq, Repr

/-- The `toolCall` field of a `Message`. -/
structure ToolCall where
  name : String
  status : ToolStatus
deriving DecidableEq, Repr

/-- A citation entry `{display_name}` carried by a `sources` event. -/
structure SourceDoc where
  display_name : String
deriving DecidableEq, Repr

/-- The `Message` type of `useChatSession.ts` (both variants agree). -/
structure Message where
  id : String
  role : Role
  content : String
  sources : Option (List SourceDoc) := none
  toolCall : Option ToolCall := none
deriving DecidableEq, Repr

/-- The payload of a `token` event: `{chunk, new_message}`. -/
structure TokenPayload where
  chunk : String
  new_message : Bool
deriving DecidableEq, Repr

/-- `updateAssistant` from `useChatSession.ts` (identical in both variants):
if the list is empty, or the last message is not an assistant message, or the
last message carries a `toolCall`, or the producer set `new_message`, append a
fresh assistant message seeded with the chunk; otherwise append the chunk to
the last message's `content`.  The locally generated id
(`assistant-${crypto.randomUUID()}`) is passed in as `newId`. -/
def updateAssistant (newId : String) (messages : List Message)
    (p : TokenPayload) : List Message :=
  match messages.getLast? with
  | none => messages ++ [{ id := newId, role := .assistant, content := p.chunk }]
  | some last =>
    if last.role ≠ Role.assistant ∨ last.toolCall.isSome ∨ p.new_message then
      messages ++ [{ id := newId, role := .assistant, content := p.chunk }]
    else
      messages.dropLast ++ [{ last with content := last.content ++ p.chunk }]

/-- The branch condition of `updateAssistant`, as a Boolean: does the token
event open a new assistant bubble? -/
def startsNewBubble (messages : List Message) (p : TokenPayload) : Bool :=
  match messages.getLast? with
  | none => true
  | some last => last.role != Role.assistant || last.toolCall.isSome || p.new_message

/-- `attachSources` from `useChatSession.ts` (identical in both variants):
attach the source list to the last message iff it is an assistant message. -/
def attachSources (messages : List Message) (sources : List SourceDoc) :
    List Message :=
  match messages.getLast? with
  | none => messages
  | some last =>
    if last.role ≠ Role.assistant then messages
    else messages.dropLast ++ [{ last with sources := some sources }]

/-- `addOrUpdateToolCall` from `useChatSession.ts`: if the last message is an
assistant message with a running tool call, rename the tool in place;
otherwise append a new empty assistant message with a running tool call. -/
def addOrUpdateToolCall (newId : String) (messages : List Message)
    (toolName : String) : List Message :=
  match messages.getLast? with
  | some last =>
    if last.role = Role.assistant ∧ (last.toolCall.map ToolCall.status) = some .running then
      messages.dropLast ++
        [{ last with toolCall := some { name := toolName, status := .running } }]
    else
      messages ++ [{ id := newId, role := .assistant, content := "",
                     toolCall := some { name := toolName, status := .running } }]
  | none =>
      messages ++ [{ id := newId, role := .assistant, content := "",
                     toolCall := some { name := toolName, status := .running } }]

/-- `completeToolCall` from `useChatSession.ts`: if the last message's tool
call is named `toolName`, flip its status to completed; otherwise no-op. -/
def completeToolCall (messages : List Message) (toolName : String) :
    List Message :=
  match messages.getLast? with
  | some last =>
    if last.role = Role.assistant ∧ (last.toolCall.map ToolCall.name) = some toolName then
      match last.toolCall with
      | some tc =>
          messages.dropLast ++ [{ last with toolCall := some { tc with status := .completed } }]
      | none => messages
    else messages
  | none => messages

/-- Folding a sequence of `token` events with `new_message = false` through
`updateAssistant`, in arrival order. -/
def foldTokens (newId : String) (messages : List Message) :
    List String → List Message
  | [] => messages
  | c :: cs => foldTokens newId (updateAssistant newId messages ⟨c, false⟩) cs

/-- Folding a sequence of `sources` events through `attachSources`, in
arrival order. -/
def foldSources (messages : List Message) (events : List (List SourceDoc)) :
    List Message :=
  events.foldl attachSources messages

theorem getLast?_concat' (pre : List Message) (last : Message) :
    (pre ++ [last]).getLast? = some last := by
  simp [List.getLast?_concat]

theorem foldTokens_concat (newId : String) (pre : List Message)
    (last : Message) (hr : last.role = Role.assistant)
    (ht : last.toolCall = none) (chunks : List String) :
    foldTokens newId (pre ++ [last]) chunks
      = pre ++ [{ last with content := last.content ++ String.join chunks }] := by
  induction chunks generalizing last with
  | nil => simp [foldTokens, String.join]
  | cons c cs ih =>
    rw [foldTokens]
    have hstep : updateAssistant newId (pre ++ [last]) ⟨c, false⟩
        = pre ++ [{ last with content := last.content ++ c }] := by
      rw [updateAssistant, getLast?_concat' pre last]
      simp [hr, ht, List.dropLast_concat]
    rw [hstep, ih { last with content := last.content ++ c } hr ht]
    have hfold : ∀ (l : List String) (a b : String),
        List.foldl (fun r s => r ++ s) (a ++ b) l
          = a ++ List.foldl (fun r s => r ++ s) b l := by
      intro l
      induction l with
      | nil => intro a b; rfl
      | cons x xs ih2 =>
        intro a b
        simp only [List.foldl_cons, String.append_assoc]
        exact ih2 a (b ++ x)
    have h2 : List.foldl (fun r s => r ++ s) c cs
        = c ++ List.foldl (fun r s => r ++ s) "" cs := by
      simpa using hfold cs c ""
    simp [String.join, h2, String.append_assoc]

theorem attachSources_concat (pre : List Message) (last : Message)
    (s : List SourceDoc) (hr : last.role = Role.assistant) :
    attachSources (pre ++ [last]) s = pre ++ [{ last with sources := some s }] := by
  rw [attachSources, getLast?_concat' pre last]
  simp [hr, List.dropLast_concat]

/-- C5: `onToken(messages, {chunk, new_message})` appends a new assistant
message seeded with the chunk exactly when the list is empty, the last
message is a user message, the last message carries a `toolCall`, or
`new_message` is asserted (first conjunct: the result grows by one message
iff the branch condition holds); and folding any sequence of `token` events
with `new_message = false` after a plain assistant message leaves the last
message's content equal to its prior content followed by the concatenation
of the chunks in arrival order (second conjunct). -/
theorem c5_token_reconciliation :
    (∀ (newId : String) (ms : List Message) (p : TokenPayload),
        (updateAssistant newId ms p).length = ms.length + 1
          ↔ startsNewBubble ms p = true)
  ∧ (∀ (newId : String) (pre : List Message) (last : Message)
        (chunks : List String),
        last.role = Role.assistant → last.toolCall = none →
        foldTokens newId (pre ++ [last]) chunks
          = pre ++ [{ last with content := last.content ++ String.join chunks }]) := by
  constructor
  · intro newId ms p
    rcases h : ms.getLast? with _ | last
    · simp [updateAssistant, startsNewBubble, h]
    · have hne : ms ≠ [] := by
        intro hnil
        rw [hnil] at h
        simp at h
      by_cases hc : last.role ≠ Role.assistant ∨ last.toolCall.isSome ∨ p.new_message
      · rw [updateAssistant, h]
        simp only [hc, if_true]
        constructor
        · intro _
          rcases hc with h1 | h2 | h3
          · simp [startsNewBubble, h, h1]
          · simp [startsNewBubble, h, h2]
          · simp [startsNewBubble, h, h3]
        · intro _
          simp
      · rw [updateAssistant, h]
        simp only [hc, if_false]
        push_neg at hc
        obtain ⟨h1, h2, h3⟩ := hc
        constructor
        · intro hlen
          rw [List.length_append, List.length_dropLast, List.length_singleton] at hlen
          have hpos : 0 < ms.length := List.length_pos.mpr hne
          omega
        · intro hb
          rw [startsNewBubble, h] at hb
          simp [h1, h2, h3] at hb
  · intro newId pre last chunks hr ht
    exact foldTokens_concat newId pre last hr ht chunks

/-- C5 witness: the branch condition and the folding law evaluated on the
spec's end-to-end scenario (chunks "PTO", " policy", " is..."). -/
theorem c5_token_reconciliation_witness :
    foldTokens "a1"
        ([{ id := "u1", role := .user, content := "Q" }]
          ++ [{ id := "m1", role := .assistant, content := "PTO" }])
        [" policy", " is..."]
      = [{ id := "u1", role := .user, content := "Q" },
         { id := "m1", role := .assistant, content := "PTO policy is..." }] := by
  have h := c5_token_reconciliation.2 "a1"
    [{ id := "u1", role := .user, content := "Q" }]
    { id := "m1", role := .assistant, content := "PTO" }
    [" policy", " is..."] rfl rfl
  rw [h]
  decide

/-- C10: `onSources` is last-write-wins.  First conjunct: applying
`attachSources` twice with the same list equals applying it once (for every
message list, with no assumption on the last message).  Second conjunct: when
the last message is an assistant message, the attached sources replace any
previously attached sources outright.  Third conjunct: after folding several
`sources` events the last message's sources equal exactly the list carried by
the most recent event. -/
theorem c10_sources_last_write_wins :
    (∀ (ms : List Message) (s : List SourceDoc),
        attachSources (attachSources ms s) s = attachSources ms s)
  ∧ (∀ (pre : List Message) (last : Message) (s : List SourceDoc),
        last.role = Role.assistant →
        attachSources (pre ++ [last]) s = pre ++ [{ last with sources := some s }])
  ∧ (∀ (pre : List Message) (last : Message)
        (events : List (List SourceDoc)) (s : List SourceDoc),
        last.role = Role.assistant →
        foldSources (pre ++ [last]) (events ++ [s])
          = pre ++ [{ last with sources := some s }]) := by
  refine ⟨?_, ?_, ?_⟩
  · intro ms s
    rcases List.eq_nil_or_concat ms with rfl | ⟨pre, last, rfl⟩
    · rfl
    · simp only [List.concat_eq_append]
      by_cases hr : last.role = Role.assistant
      · rw [attachSources_concat pre last s hr,
          attachSources_concat pre { last with sources := some s } s hr]
      · have hinner : attachSources (pre ++ [last]) s = pre ++ [last] := by
          rw [attachSources, getLast?_concat' pre last]
          simp [hr]
        rw [hinner]
        exact hinner
  · intro pre last s hr
    exact attachSources_concat pre last s hr
  · intro pre last events s hr
    induction events generalizing last with
    | nil =>
      show attachSources (pre ++ [last]) s = _
      exact attachSources_concat pre last s hr
    | cons e es ih =>
      have h1 : foldSources (pre ++ [last]) ((e :: es) ++ [s])
          = foldSources (attachSources (pre ++ [last]) e) (es ++ [s]) := rfl
      rw [h1, attachSources_concat pre last e hr]
      exact ih { last with sources := some e } hr

/-- C10 witness: folding two `sources` events leaves exactly the second
event's list on the assistant message, and a repeated identical event is a
no-op. -/
theorem c10_sources_last_write_wins_witness :
    foldSources [{ id := "m1", role := .assistant, content := "hi" }]
        [[{ display_name := "a.pdf" }], [{ display_name := "hr.pdf" }]]
      = [{ id := "m1", role := .assistant, content := "hi",
           sources := some [{ display_name := "hr.pdf" }] }] := by
  have h := c10_sources_last_write_wins.2.2 []
    { id := "m1", role := .assistant, content := "hi" }
    [[{ display_name := "a.pdf" }]] [{ display_name := "hr.pdf" }] rfl
  simpa using h

/-- Greedy left-to-right split on the two-character separator `"\n\n"`,
modelling `accumulatedChunks.split("\n\n")` in `streamQuery` (JavaScript
`String.prototype.split` with a string separator).  Strings are modelled as
`List Char`. -/
def splitNN : List Char → List (List Char)
  | [] => [[]]
  | [c] => [[c]]
  | c1 :: c2 :: rest =>
    if c1 = '\n' ∧ c2 = '\n' then
      [] :: splitNN rest
    else
      match splitNN (c2 :: rest) with
      | [] => [[c1]]
      | p :: ps => (c1 :: p) :: ps

/-- Re-joining the parts with the separator, used to show `splitNN` loses no
bytes. -/
def joinNN : List (List Char) → List Char
  | [] => []
  | [p] => p
  | p :: q :: ps => p ++ '\n' :: '\n' :: joinNN (q :: ps)

theorem splitNN_ne_nil (l : List Char) : splitNN l ≠ [] := by
  induction l using splitNN.induct with
  | case1 => simp [splitNN]
  | case2 c => simp [splitNN]
  | case3 c1 c2 rest hnn ih =>
    rw [splitNN, if_pos hnn]
    simp
  | case4 c1 c2 rest hnn hnil ih => exact absurd hnil ih
  | case5 c1 c2 rest hnn p ps hs ih =>
    rw [splitNN, if_neg hnn]
    simp only [hs]
    simp

theorem splitNN_sep (rest : List Char) :
    splitNN ('\n' :: '\n' :: rest) = [] :: splitNN rest := by
  rw [splitNN, if_pos ⟨rfl, rfl⟩]

theorem splitNN_cons {c1 c2 : Char} {rest p : List Char} {ps : List (List Char)}
    (hnn : ¬(c1 = '\n' ∧ c2 = '\n')) (hs : splitNN (c2 :: rest) = p :: ps) :
    splitNN (c1 :: c2 :: rest) = (c1 :: p) :: ps := by
  rw [splitNN, if_neg hnn]
  simp only [hs]

theorem joinNN_splitNN (l : List Char) : joinNN (splitNN l) = l := by
  induction l using splitNN.induct with
  | case1 => rfl
  | case2 c => rfl
  | case3 c1 c2 rest hnn ih =>
    obtain ⟨rfl, rfl⟩ := hnn
    rw [splitNN_sep]
    rcases hs : splitNN rest with _ | ⟨q, qs⟩
    · exact absurd hs (splitNN_ne_nil rest)
    · rw [hs] at ih
      rw [joinNN]
      simpa using ih
  | case4 c1 c2 rest hnn hnil ih => exact absurd hnil (splitNN_ne_nil _)
  | case5 c1 c2 rest hnn p ps hs ih =>
    rw [splitNN_cons hnn hs]
    rw [hs] at ih
    rcases ps with _ | ⟨q, qs⟩
    · rw [joinNN]
      rw [joinNN] at ih
      simp [ih]
    · rw [joinNN]
      rw [joinNN] at ih
      simpa using ih

theorem splitNN_singleton {l p : List Char} (h : splitNN l = [p]) : p = l := by
  have hj := joinNN_splitNN l
  rw [h] at hj
  simpa [joinNN] using hj

theorem getLastD_irrel {α : Type} {l : List α} (hne : l ≠ []) (a b : α) :
    l.getLastD a = l.getLastD b := by
  rcases List.eq_nil_or_concat l with rfl | ⟨pre, last, rfl⟩
  · exact absurd rfl hne
  · simp only [List.concat_eq_append]
    rw [List.getLastD_concat, List.getLastD_concat]

theorem splitNN_append (x y : List Char) :
    splitNN (x ++ y)
      = (splitNN x).dropLast ++ splitNN ((splitNN x).getLastD [] ++ y) := by
  induction x using splitNN.induct with
  | case1 => simp [splitNN]
  | case2 c =>
    have h1 : splitNN [c] = [[c]] := by rw [splitNN]
    rw [h1]
    simp
  | case3 c1 c2 rest hnn ih =>
    obtain ⟨rfl, rfl⟩ := hnn
    rcases hs : splitNN rest with _ | ⟨q, qs⟩
    · exact absurd hs (splitNN_ne_nil rest)
    · rw [hs] at ih
      have hl : ('\n' :: '\n' :: rest) ++ y = '\n' :: '\n' :: (rest ++ y) := by simp
      rw [hl, splitNN_sep (rest ++ y), splitNN_sep rest, hs, ih]
      simp only [List.getLastD_cons, List.dropLast_cons₂, List.cons_append]
  | case4 c1 c2 rest hnn hnil ih => exact absurd hnil (splitNN_ne_nil _)
  | case5 c1 c2 rest hnn p ps hs ih =>
    rw [hs] at ih
    have hl : (c1 :: c2 :: rest) ++ y = c1 :: c2 :: (rest ++ y) := by simp
    rcases ps with _ | ⟨q, qs⟩
    · have hp : p = c2 :: rest := splitNN_singleton hs
      subst hp
      rw [splitNN_cons hnn hs]
      simp
    · have hT : splitNN (c2 :: (rest ++ y))
          = p :: ((q :: qs).dropLast ++ splitNN ((q :: qs).getLastD p ++ y)) := by
        have hca : (c2 :: rest) ++ y = c2 :: (rest ++ y) := by simp
        rw [← hca, ih, List.getLastD_cons]
        rw [List.dropLast_cons₂]
        simp
      rw [hl, splitNN_cons hnn hT, splitNN_cons hnn hs]
      simp only [List.getLastD_cons, List.dropLast_cons₂, List.cons_append]

theorem splitNN_getLastD (l : List Char) :
    splitNN ((splitNN l).getLastD []) = [(splitNN l).getLastD []] := by
  induction l using splitNN.induct with
  | case1 => rfl
  | case2 c =>
    have h : ([[c]] : List (List Char)).getLastD [] = [c] := rfl
    have h2 : splitNN [c] = [[c]] := by rw [splitNN]
    rw [h2, h, h2]
  | case3 c1 c2 rest hnn ih =>
    obtain ⟨rfl, rfl⟩ := hnn
    rw [splitNN_sep]
    rcases hs : splitNN rest with _ | ⟨q, qs⟩
    · exact absurd hs (splitNN_ne_nil rest)
    · rw [hs] at ih
      simp only [List.getLastD_cons] at ih ⊢
      exact ih
  | case4 c1 c2 rest hnn hnil ih => exact absurd hnil (splitNN_ne_nil _)
  | case5 c1 c2 rest hnn p ps hs ih =>
    rw [hs] at ih
    rcases ps with _ | ⟨q, qs⟩
    · have hp : p = c2 :: rest := splitNN_singleton hs
      subst hp
      rw [splitNN_cons hnn hs]
      simp only [List.getLastD_cons, List.getLastD]
      exact splitNN_cons hnn hs
    · rw [splitNN_cons hnn hs]
      simp only [List.getLastD_cons] at ih ⊢
      exact ih

/-- The typed stream events decoded from a `data: <json>` record
(`<json>.event ∈ {token, sources, tool_start, tool_end, end, error}`). -/
inductive SseEvent
  | token (chunk : String) (new_message : Bool)
  | sourcesEv (s : List SourceDoc)
  | toolStart (name : String)
  | toolEnd (name : String)
  | endEv
  | errorEv (msg : String)
deriving DecidableEq, Repr

/-- One observable handler invocation made by `streamQuery`. -/
inductive Action
  | onStart
  | onToken (chunk : String) (new_message : Bool)
  | onSources (s : List SourceDoc)
  | onToolStart (name : String)
  | onToolEnd (name : String)
  | onError (msg : String)
  | onFinish
deriving DecidableEq, Repr

/-- The `"data: "` record tag tested by `line.startsWith("data: ")`. -/
def dataTag : List Char := "data: ".toList

/-- The outcome of the read that terminates the read loop: logical EOF
(`done`), rejection of the pending read because the `AbortController` was
aborted, or a transport/connection error. -/
inductive ReadEnd
  | eof
  | aborted
  | transportErr (msg : String)
deriving DecidableEq, Repr

/-- The body of the record-dispatch `for` loop of the second `streamQuery`
variant (the one wrapping `JSON.parse` in try/catch): a complete line is
dispatched if it starts with `"data: "` and its payload parses; a payload
whose parse throws (`parse _ = none`) is logged and skipped; `end` sets the
`ended` flag and fires `onFinish`; `error` fires `onError` and sets `ended`.
State is `(ended, actions so far)`. -/
def procLine2 (parse : List Char → Option SseEvent) (st : Bool × List Action)
    (line : List Char) : Bool × List Action :=
  if dataTag.isPrefixOf line then
    match parse (line.drop 6) with
    | some (.token c b) => (st.1, st.2 ++ [.onToken c b])
    | some (.sourcesEv s) => (st.1, st.2 ++ [.onSources s])
    | some .endEv => (true, st.2 ++ [.onFinish])
    | some (.toolStart n) => (st.1, st.2 ++ [.onToolStart n])
    | some (.toolEnd n) => (st.1, st.2 ++ [.onToolEnd n])
    | some (.errorEv m) => (true, st.2 ++ [.onError m])
    | none => st
  else st

/-- The full record-dispatch loop of the second variant over the complete
records of one read. -/
def procLines2 (parse : List Char → Option SseEvent) (st : Bool × List Action)
    (lines : List (List Char)) : Bool × List Action :=
  lines.foldl (procLine2 parse) st

/-- What the second `streamQuery` variant does once the read loop is left by
the terminating read itself (`ended = false` on every path that reaches the
final read): `done` breaks and the `finally` block fires `onFinish`; an
`AbortError` is caught silently and `finally` fires `onFinish`; any other
error fires `onError` and then `finally` fires `onFinish`. -/
def finActions2 (fin : ReadEnd) (ended : Bool) (acts : List Action) :
    List Action :=
  match fin with
  | .eof => if ended then acts else acts ++ [.onFinish]
  | .aborted => if ended then acts else acts ++ [.onFinish]
  | .transportErr m => (acts ++ [.onError m]) ++ (if ended then [] else [.onFinish])

/-- The read loop of the second `streamQuery` variant.  `chunks` are the
successful reads still to arrive, `fin` the outcome of the read after them,
`buf` the `accumulatedChunks` buffer, `ended` the flag, `acts` the actions
already performed.  Each read appends to the buffer, splits on `"\n\n"`,
keeps the trailing (possibly incomplete) part as the new buffer, dispatches
the complete records, and breaks when `ended` was set. -/
def run2Loop (parse : List Char → Option SseEvent) :
    List (List Char) → ReadEnd → List Char → Bool → List Action → List Action
  | [], fin, _buf, ended, acts => finActions2 fin ended acts
  | c :: cs, fin, buf, ended, acts =>
    let parts := splitNN (buf ++ c)
    let st := procLines2 parse (ended, acts) parts.dropLast
    if st.1 then st.2
    else run2Loop parse cs fin (parts.getLastD []) st.1 st.2

/-- The observable action trace of the second `streamQuery` variant on a
stream delivered as `chunks` and terminated by `fin`. -/
def run2 (parse : List Char → Option SseEvent) (chunks : List (List Char))
    (fin : ReadEnd) : List Action :=
  Action.onStart :: run2Loop parse chunks fin [] false []

/-- Does dispatching this complete record set the `ended` flag in the second
variant (an `end` or `error` event)? -/
def setsEnded (parse : List Char → Option SseEvent) (r : List Char) : Bool :=
  if dataTag.isPrefixOf r then
    match parse (r.drop 6) with
    | some .endEv => true
    | some (.errorEv _) => true
    | _ => false
  else false

theorem procLine2_fst (parse : List Char → Option SseEvent)
    (st : Bool × List Action) (r : List Char) :
    (procLine2 parse st r).1 = (st.1 || setsEnded parse r) := by
  by_cases hpre : dataTag.isPrefixOf r = true
  · rcases hp : parse (r.drop 6) with _ | ev
    · simp [procLine2, setsEnded, hpre, hp]
    · cases ev <;> simp [procLine2, setsEnded, hpre, hp]
  · simp [procLine2, setsEnded, hpre]

theorem procLines2_fst (parse : List Char → Option SseEvent)
    (rs : List (List Char)) :
    ∀ st : Bool × List Action,
      (procLines2 parse st rs).1 = (st.1 || rs.any (setsEnded parse)) := by
  induction rs with
  | nil => intro st; simp [procLines2]
  | cons r rs ih =>
    intro st
    have h1 : procLines2 parse st (r :: rs)
        = procLines2 parse (procLine2 parse st r) rs := rfl
    rw [h1, ih, procLine2_fst]
    simp [Bool.or_assoc]

theorem procLines2_append (parse : List Char → Option SseEvent)
    (st : Bool × List Action) (rs ss : List (List Char)) :
    procLines2 parse st (rs ++ ss) = procLines2 parse (procLines2 parse st rs) ss :=
  List.foldl_append _ _ _ _

/-- The canonical continuation of the second variant once the complete
records of the whole byte stream are known: dispatch them all, then, if the
`ended` flag is still clear, observe the terminating read. -/
def run2Tail (parse : List Char → Option SseEvent) (fin : ReadEnd)
    (records : List (List Char)) (acts : List Action) : List Action :=
  let st := procLines2 parse (false, acts) records
  if st.1 then st.2 else finActions2 fin false st.2

theorem run2Loop_char (parse : List Char → Option SseEvent) (fin : ReadEnd) :
    ∀ (cs : List (List Char)) (buf : List Char) (acts : List Action),
      splitNN buf = [buf] →
      (∀ r ∈ ((splitNN (buf ++ cs.join)).dropLast).dropLast,
          setsEnded parse r = false) →
      run2Loop parse cs fin buf false acts
        = run2Tail parse fin ((splitNN (buf ++ cs.join)).dropLast) acts := by
  intro cs
  induction cs with
  | nil =>
    intro buf acts hbuf hH
    rw [run2Loop]
    simp only [List.join_nil, List.append_nil]
    rw [hbuf]
    simp [run2Tail, procLines2, finActions2]
  | cons c cs ih =>
    intro buf acts hbuf hH
    have hassoc : buf ++ (c :: cs).join = (buf ++ c) ++ cs.join := by
      simp [List.join_cons, List.append_assoc]
    have hsplit : splitNN (buf ++ (c :: cs).join)
        = (splitNN (buf ++ c)).dropLast
            ++ splitNN ((splitNN (buf ++ c)).getLastD [] ++ cs.join) := by
      rw [hassoc, splitNN_append]
    have hRt : (splitNN (buf ++ (c :: cs).join)).dropLast
        = (splitNN (buf ++ c)).dropLast
            ++ (splitNN ((splitNN (buf ++ c)).getLastD [] ++ cs.join)).dropLast := by
      rw [hsplit, List.dropLast_append_of_ne_nil _ (splitNN_ne_nil _)]
    set R1 := (splitNN (buf ++ c)).dropLast with hR1
    set R2 := (splitNN ((splitNN (buf ++ c)).getLastD [] ++ cs.join)).dropLast with hR2
    set st1 := procLines2 parse (false, acts) R1 with hst1
    rcases hst : st1.1 with _ | _
    · -- ended not set by this chunk: recurse
      have hunfold : run2Loop parse (c :: cs) fin buf false acts
          = run2Loop parse cs fin ((splitNN (buf ++ c)).getLastD []) st1.1 st1.2 := by
        rw [run2Loop]
        simp only [← hR1, ← hst1, hst]
        simp
      have hH2 : ∀ r ∈ R2.dropLast, setsEnded parse r = false := by
        intro r hr
        have hR2ne : R2 ≠ [] := by
          intro hnil
          rw [hnil] at hr
          simp at hr
        apply hH
        rw [hRt, List.dropLast_append_of_ne_nil _ hR2ne]
        exact List.mem_append_right _ hr
      rw [hunfold, hst]
      rw [ih ((splitNN (buf ++ c)).getLastD []) st1.2 (splitNN_getLastD _) hH2]
      have heta : ((false : Bool), st1.2) = st1 := by
        rw [← hst]
      rw [run2Tail, run2Tail, hRt, procLines2_append, ← hst1, heta]
    · -- ended was set by a record of this chunk: the loop breaks here
      have hunfold : run2Loop parse (c :: cs) fin buf false acts = st1.2 := by
        rw [run2Loop]
        simp only [← hR1, ← hst1, hst]
        simp
      have hany : R1.any (setsEnded parse) = true := by
        have := procLines2_fst parse R1 (false, acts)
        rw [← hst1, hst] at this
        simpa using this.symm
      have hR2nil : R2 = [] := by
        by_contra hne
        obtain ⟨r, hrmem, hrset⟩ := List.any_eq_true.mp hany
        have hmem : r ∈ ((splitNN (buf ++ (c :: cs).join)).dropLast).dropLast := by
          rw [hRt, List.dropLast_append_of_ne_nil _ hne]
          exact List.mem_append_left _ hrmem
        have := hH r hmem
        rw [this] at hrset
        exact Bool.false_ne_true hrset
      rw [hunfold]
      rw [run2Tail, hRt, hR2nil, List.append_nil, ← hst1, hst]
      simp

/-- C9 (amended): the dispatched action trace of the second `streamQuery`
variant is invariant under the read-chunking of the byte stream, provided no
complete record other than possibly the final one is a terminating (`end` or
`error`) record.  (The counterexample shows the proviso is necessary: a
record that follows an `end` record is dispatched iff it arrives in the same
read.)  In particular, a record split across two reads yields the same
events as one delivered whole. -/
theorem c9_chunking_invariance (parse : List Char → Option SseEvent)
    (cs ds : List (List Char)) (fin : ReadEnd)
    (hjoin : cs.join = ds.join)
    (hH : ∀ r ∈ ((splitNN cs.join).dropLast).dropLast,
        setsEnded parse r = false) :
    run2 parse cs fin = run2 parse ds fin := by
  have hbuf : splitNN ([] : List Char) = [[]] := rfl
  have h1 := run2Loop_char parse fin cs [] [] hbuf (by simpa using hH)
  have h2 := run2Loop_char parse fin ds [] [] hbuf
    (by simpa [← hjoin] using hH)
  rw [run2, run2, h1, h2]
  simp [hjoin]

/-- The outcome of the record-dispatch `for` loop of the first `streamQuery`
variant, which has no try/catch around `JSON.parse`: it either finishes the
chunk normally, breaks after an `end` event, or throws out of the whole read
loop when a payload fails to parse. -/
inductive LoopOut1
  | normal (acts : List Action)
  | endedStop (acts : List Action)
  | exn (acts : List Action)
deriving DecidableEq, Repr

/-- The value carried by a `LoopOut1`. -/
def LoopOut1.acts : LoopOut1 → List Action
  | .normal a => a
  | .endedStop a => a
  | .exn a => a

/-- The record-dispatch loop of the first `streamQuery` variant.  A parse
failure (`JSON.parse` throwing) aborts the loop and propagates (`exn`); an
`end` event fires `onFinish`, aborts the controller and breaks
(`endedStop`); there is no `error` event branch in this variant, so such a
record is skipped like any unknown event. -/
def procLines1 (parse : List Char → Option SseEvent) (acts : List Action) :
    List (List Char) → LoopOut1
  | [] => .normal acts
  | l :: ls =>
    if dataTag.isPrefixOf l then
      match parse (l.drop 6) with
      | none => .exn acts
      | some (.token c b) => procLines1 parse (acts ++ [.onToken c b]) ls
      | some (.sourcesEv s) => procLines1 parse (acts ++ [.onSources s]) ls
      | some .endEv => .endedStop (acts ++ [.onFinish])
      | some (.toolStart n) => procLines1 parse (acts ++ [.onToolStart n]) ls
      | some (.toolEnd n) => procLines1 parse (acts ++ [.onToolEnd n]) ls
      | some (.errorEv _) => procLines1 parse acts ls
    else procLines1 parse acts ls

/-- The read loop of the first `streamQuery` variant.  `hadData` records
whether any read has delivered a chunk.  On a transport error the catch
block fires `onError`/`onFinish` only when no data had arrived
(`!ended && !hadData`); a caught `AbortError` always fires `onFinish`; a
parse exception escapes with `hadData = true`, so nothing further is fired;
`done` without a prior `end` fires `onFinish`. -/
def run1Loop (parse : List Char → Option SseEvent) :
    List (List Char) → ReadEnd → List Char → Bool → List Action → List Action
  | [], fin, _buf, hadData, acts =>
    match fin with
    | .eof => acts ++ [.onFinish]
    | .aborted => acts ++ [.onFinish]
    | .transportErr m => if hadData then acts else acts ++ [.onError m, .onFinish]
  | c :: cs, fin, buf, _hadData, acts =>
    match procLines1 parse acts (splitNN (buf ++ c)).dropLast with
    | .normal acts2 => run1Loop parse cs fin ((splitNN (buf ++ c)).getLastD []) true acts2
    | .endedStop acts2 => acts2
    | .exn acts2 => acts2

/-- The observable action trace of the first `streamQuery` variant. -/
def run1 (parse : List Char → Option SseEvent) (chunks : List (List Char))
    (fin : ReadEnd) : List Action :=
  Action.onStart :: run1Loop parse chunks fin [] false []

/-- A concrete payload parser used for the concrete evaluations: three
recognised payloads; everything else fails to parse (models `JSON.parse`
throwing on a malformed record). -/
def parse0 (r : List Char) : Option SseEvent :=
  if r = "END".toList then some .endEv
  else if r = "TOKA".toList then some (.token "A" false)
  else if r = "TOKB".toList then some (.token "B" false)
  else none

theorem procLines1_no_onError (parse : List Char → Option SseEvent)
    (m : String) (ls : List (List Char)) :
    ∀ acts : List Action, Action.onError m ∉ acts →
      Action.onError m ∉ (procLines1 parse acts ls).acts := by
  induction ls with
  | nil => intro acts h; exact h
  | cons l ls ih =>
    intro acts h
    rw [procLines1]
    by_cases hpre : dataTag.isPrefixOf l = true
    · simp only [hpre, if_true]
      rcases hp : parse (l.drop 6) with _ | ev
      · exact h
      · cases ev with
        | token c b =>
          refine ih (acts ++ [.onToken c b]) ?_
          simp [h]
        | sourcesEv s =>
          refine ih (acts ++ [.onSources s]) ?_
          simp [h]
        | toolStart n =>
          refine ih (acts ++ [.onToolStart n]) ?_
          simp [h]
        | toolEnd n =>
          refine ih (acts ++ [.onToolEnd n]) ?_
          simp [h]
        | endEv =>
          show Action.onError m ∉ acts ++ [Action.onFinish]
          simp [h]
        | errorEv s => exact ih acts h
    · simp only [hpre, if_false]
      exact ih acts h

theorem run1Loop_no_onError (parse : List Char → Option SseEvent)
    (m : String) (fin : ReadEnd) (cs : List (List Char)) :
    ∀ (buf : List Char) (acts : List Action), Action.onError m ∉ acts →
      Action.onError m ∉ run1Loop parse cs fin buf true acts := by
  induction cs with
  | nil =>
    intro buf acts h
    rcases fin with _ | _ | m2
    · rw [run1Loop]; simp [h]
    · rw [run1Loop]; simp [h]
    · rw [run1Loop]; simpa using h
  | cons c cs ih =>
    intro buf acts h
    rw [run1Loop]
    rcases hout : procLines1 parse acts (splitNN (buf ++ c)).dropLast with a2 | a2 | a2
    · have h2 := procLines1_no_onError parse m (splitNN (buf ++ c)).dropLast acts h
      rw [hout] at h2
      exact ih _ a2 h2
    · have h2 := procLines1_no_onError parse m (splitNN (buf ++ c)).dropLast acts h
      rw [hout] at h2
      exact h2
    · have h2 := procLines1_no_onError parse m (splitNN (buf ++ c)).dropLast acts h
      rw [hout] at h2
      exact h2

/-- C2 counterexample: in the second `streamQuery` variant a transport error
invokes the error callback even though data (a token record) had already
arrived on the stream, contradicting the claim that the error callback is
invoked only if no data had yet arrived. -/
theorem c2_counterexample :
    run2 parse0 ["data: TOKA\n\n".toList] (.transportErr "boom")
      = [Action.onStart, Action.onToken "A" false,
         Action.onError "boom", Action.onFinish] := by
  decide

/-- C2 (amended): the data-arrival gating holds only in the first
`streamQuery` variant: there, once any read delivered a chunk, a transport
error invokes no error callback at all (first conjunct), while with no data
the error is surfaced and the stream finished (second conjunct).  In the
second variant a transport error reached by the read loop always invokes the
error callback, whether or not data had arrived (third conjunct; the
hypothesis says no record had terminated the stream before the error). -/
theorem c2_transport_error_gating :
    (∀ (parse : List Char → Option SseEvent) (c : List Char)
        (cs : List (List Char)) (fin : ReadEnd) (m : String),
        Action.onError m ∉ run1 parse (c :: cs) fin)
  ∧ (∀ (parse : List Char → Option SseEvent) (m : String),
        run1 parse [] (.transportErr m)
          = [Action.onStart, Action.onError m, Action.onFinish])
  ∧ (∀ (parse : List Char → Option SseEvent) (cs : List (List Char)) (m : String),
        (∀ r ∈ (splitNN cs.flatten).dropLast, setsEnded parse r = false) →
        Action.onError m ∈ run2 parse cs (.transportErr m)) := by
  refine ⟨?_, ?_, ?_⟩
  · intro parse c cs fin m
    rw [run1, run1Loop]
    have hbase : Action.onError m ∉ ([] : List Action) := by simp
    have h2 := procLines1_no_onError parse m (splitNN ([] ++ c)).dropLast [] hbase
    rcases hout : procLines1 parse [] (splitNN ([] ++ c)).dropLast with a2 | a2 | a2 <;>
      rw [hout] at h2
    · have h3 := run1Loop_no_onError parse m fin cs ((splitNN ([] ++ c)).getLastD []) a2 h2
      simp only [List.mem_cons]
      rintro (h4 | h4)
      · exact Action.noConfusion h4
      · exact h3 h4
    · simp only [List.mem_cons]
      rintro (h4 | h4)
      · exact Action.noConfusion h4
      · exact h2 h4
    · simp only [List.mem_cons]
      rintro (h4 | h4)
      · exact Action.noConfusion h4
      · exact h2 h4
  · intro parse m
    rfl
  · intro parse cs m hH
    have hbuf : splitNN ([] : List Char) = [[]] := rfl
    have hH2 : ∀ r ∈ ((splitNN (([] : List Char) ++ cs.flatten)).dropLast).dropLast,
        setsEnded parse r = false := by
      intro r hr
      exact hH r (List.dropLast_subset _ hr)
    rw [run2, run2Loop_char parse (.transportErr m) cs [] [] hbuf hH2]
    rw [run2Tail]
    have hfst : (procLines2 parse (false, [])
        ((splitNN (([] : List Char) ++ cs.flatten)).dropLast)).1 = false := by
      rw [procLines2_fst]
      simp only [Bool.false_or]
      rw [List.any_eq_false]
      intro r hr
      rw [hH r (by simpa using hr)]
      simp
    simp only [hfst]
    simp [finActions2]

/-- C2 witness: the second-variant clause of the amended statement applied
to a concrete stream that had already delivered a token record. -/
theorem c2_transport_error_gating_witness :
    Action.onError "boom" ∈ run2 parse0 ["data: TOKA\n\n".toList] (.transportErr "boom") :=
  c2_transport_error_gating.2.2 parse0 ["data: TOKA\n\n".toList] "boom" (by decide)

/-- C3 counterexample: in the first `streamQuery` variant (no try/catch
around `JSON.parse`) a malformed record terminates stream processing: the
well-formed record following it is never dispatched (it is dispatched by the
second variant on the same input), contradicting the claim that every
subsequent well-formed record is still dispatched. -/
theorem c3_counterexample :
    run1 parse0 ["data: TOKA\n\ndata: BAD\n\ndata: TOKB\n\n".toList] .eof
      = [Action.onStart, Action.onToken "A" false]
    ∧ Action.onToken "B" false
        ∈ run2 parse0 ["data: TOKA\n\ndata: BAD\n\ndata: TOKB\n\n".toList] .eof
    ∧ Action.onToken "B" false
        ∉ run1 parse0 ["data: TOKA\n\ndata: BAD\n\ndata: TOKB\n\n".toList] .eof := by
  refine ⟨by decide, by decide, by decide⟩

/-- C3 (amended): the malformed-record behaviour described by the claim is
that of the second `streamQuery` variant: a complete record whose payload
fails to parse leaves the dispatch state untouched (no handler invoked, the
`ended` flag unchanged, first conjunct), and the dispatch of a record list
equals the dispatch of just its parseable `data: `-tagged records, in order
(second conjunct).  In the first variant, by contrast, a malformed record
throws and aborts the record loop at that point (third conjunct). -/
theorem c3_malformed_record_skipped :
    (∀ (parse : List Char → Option SseEvent) (st : Bool × List Action)
        (r : List Char),
        dataTag.isPrefixOf r = true → parse (r.drop 6) = none →
        procLine2 parse st r = st)
  ∧ (∀ (parse : List Char → Option SseEvent) (st : Bool × List Action)
        (rs : List (List Char)),
        procLines2 parse st rs
          = procLines2 parse st
              (rs.filter (fun r => dataTag.isPrefixOf r && (parse (r.drop 6)).isSome)))
  ∧ (∀ (parse : List Char → Option SseEvent) (acts : List Action)
        (r : List Char) (ls : List (List Char)),
        dataTag.isPrefixOf r = true → parse (r.drop 6) = none →
        procLines1 parse acts (r :: ls) = .exn acts) := by
  refine ⟨?_, ?_, ?_⟩
  · intro parse st r hpre hp
    simp [procLine2, hpre, hp]
  · intro parse st rs
    induction rs generalizing st with
    | nil => rfl
    | cons r rs ih =>
      by_cases hkeep : (dataTag.isPrefixOf r && (parse (r.drop 6)).isSome) = true
      · have h1 : procLines2 parse st (r :: rs)
            = procLines2 parse (procLine2 parse st r) rs := rfl
        rw [h1, ih]
        have h2 : (r :: rs).filter
              (fun r => dataTag.isPrefixOf r && (parse (r.drop 6)).isSome)
            = r :: rs.filter (fun r => dataTag.isPrefixOf r && (parse (r.drop 6)).isSome) := by
          simp [List.filter_cons, hkeep]
        rw [h2]
        rfl
      · have hskip : procLine2 parse st r = st := by
          rw [Bool.and_eq_true] at hkeep
          push_neg at hkeep
          by_cases hpre : dataTag.isPrefixOf r = true
          · have hp : (parse (r.drop 6)).isSome = false := by
              rcases h : (parse (r.drop 6)).isSome with _ | _
              · rfl
              · exact absurd h (hkeep hpre)
            rcases hp2 : parse (r.drop 6) with _ | ev
            · simp [procLine2, hpre, hp2]
            · rw [hp2] at hp
              simp at hp
          · simp [procLine2, hpre]
        have h1 : procLines2 parse st (r :: rs)
            = procLines2 parse (procLine2 parse st r) rs := rfl
        rw [h1, hskip, ih]
        have h2 : (r :: rs).filter
              (fun r => dataTag.isPrefixOf r && (parse (r.drop 6)).isSome)
            = rs.filter (fun r => dataTag.isPrefixOf r && (parse (r.drop 6)).isSome) := by
          simp only [List.filter_cons]
          rw [if_neg hkeep]
        rw [h2]
  · intro parse acts r ls hpre hp
    rw [procLines1]
    simp [hpre, hp]

/-- C3 witness: the first two conjuncts applied to a concrete malformed
record: it is skipped by the second variant's dispatch loop. -/
theorem c3_malformed_record_skipped_witness :
    procLine2 parse0 (false, [Action.onToken "A" false]) ("data: BAD".toList)
      = (false, [Action.onToken "A" false]) :=
  c3_malformed_record_skipped.1 parse0 (false, [Action.onToken "A" false])
    ("data: BAD".toList) (by decide) (by decide)

/-- C9 counterexample: the dispatched trace is not invariant under read
chunking in general.  A token record following an `end` record is dispatched
by the second variant when both arrive in one read, but not when they arrive
in two reads (the loop breaks on `ended` before the second read), although
the byte streams are identical. -/
theorem c9_counterexample :
    (["data: END\n\ndata: TOKB\n\n".toList] : List (List Char)).flatten
      = (["data: END\n\n".toList, "data: TOKB\n\n".toList] : List (List Char)).flatten
    ∧ run2 parse0 ["data: END\n\ndata: TOKB\n\n".toList] .eof
        ≠ run2 parse0 ["data: END\n\n".toList, "data: TOKB\n\n".toList] .eof := by
  refine ⟨by decide, by decide⟩

/-- C9 witness: chunking invariance at a concrete stream whose only
terminating record is the final one, with the token record split across two
reads. -/
theorem c9_chunking_invariance_witness :
    run2 parse0 ["data: TOKA\n\ndata: END\n\n".toList] .eof
      = run2 parse0 ["data: TO".toList, "KA\n\ndata: END\n\n".toList] .eof :=
  c9_chunking_invariance parse0
    ["data: TOKA\n\ndata: END\n\n".toList]
    ["data: TO".toList, "KA\n\ndata: END\n\n".toList]
    .eof (by decide) (by decide)

/-- The state of one `useTaskPolling` hook instance: the single `taskId`
`useState` cell.  The polling effect is keyed on this cell; when it changes,
the effect for the previous value is cleaned up (`cancelled = true`,
`clearInterval`, `clearTimeout`). -/
structure PollerState where
  currentTaskId : Option String
deriving DecidableEq, Repr

/-- `startPolling(nextTaskId)` from `useTaskPolling.ts`: `setTaskId(nextTaskId)`.
The previous task id, if any, is overwritten. -/
def startPolling (_s : PollerState) (next : String) : PollerState :=
  { currentTaskId := some next }

/-- `stopPolling()` from `useTaskPolling.ts`: `setTaskId(null)`. -/
def stopPolling (_s : PollerState) : PollerState :=
  { currentTaskId := none }

/-- Is job `j` being polled by this hook instance?  The polling effect runs
exactly for the job in the `taskId` cell; any other job's effect has been
cleaned up. -/
def isPolling (s : PollerState) (j : String) : Bool :=
  s.currentTaskId == some j

/-- Two `useTaskPolling` hook instances (e.g. the ones in `useChatSession`
and in `ContextPanel`) have disjoint state; `startPolling` on the first
leaves the second untouched. -/
def startPollingFst (p : PollerState × PollerState) (j : String) :
    PollerState × PollerState :=
  (startPolling p.1 j, p.2)

/-- C1 counterexample: `useTaskPolling` keeps a single `taskId`; calling
`startPolling` for a second job id supersedes the first, whose polling
effect is cleaned up — the two jobs are not polled simultaneously,
contradicting the claim. -/
theorem c1_counterexample :
    isPolling (startPolling (startPolling { currentTaskId := none } "job-a") "job-b") "job-a"
      = false
    ∧ isPolling (startPolling { currentTaskId := none } "job-a") "job-a" = true
    ∧ "job-a" ≠ "job-b" := by
  refine ⟨by decide, by decide, by decide⟩

/-- C1 (amended): within one `useTaskPolling` instance at most one job is
polled at a time: after `startPolling j` exactly the job `j` is polled
(first conjunct), two distinct jobs are never polled simultaneously by one
instance (second conjunct), and polling several jobs concurrently requires
separate hook instances, which are independent: `startPolling` on one
instance polls its job and leaves the other instance's state untouched
(third conjunct). -/
theorem c1_polling_supersession :
    (∀ (s : PollerState) (j k : String), isPolling (startPolling s j) k = (j == k))
  ∧ (∀ (s : PollerState) (j k : String),
        isPolling s j = true → isPolling s k = true → j = k)
  ∧ (∀ (p : PollerState × PollerState) (j : String),
        (startPollingFst p j).2 = p.2
        ∧ isPolling (startPollingFst p j).1 j = true) := by
  refine ⟨?_, ?_, ?_⟩
  · intro s j k
    simp [isPolling, startPolling, BEq.comm]
  · intro s j k hj hk
    rw [isPolling, beq_iff_eq] at hj hk
    have h := hj.symm.trans hk
    simpa using h
  · intro p j
    refine ⟨rfl, ?_⟩
    simp [startPollingFst, isPolling, startPolling]

/-- C1 amended-claim witness: both hypotheses of the uniqueness conjunct
discharged at a concrete state. -/
theorem c1_polling_supersession_witness :
    ("job-a" : String) = "job-a" :=
  c1_polling_supersession.2.1 { currentTaskId := some "job-a" } "job-a" "job-a"
    (by decide) (by decide)

/-- A poll response as classified by `checkStatus` in `useTaskPolling.ts`:
`PENDING` keeps polling, `SUCCESS`/`FAILURE` are terminal, and a thrown
request error is terminal through `onError`. -/
inductive PollResponse
  | pending
  | success
  | failure
  | queryError
deriving DecidableEq, Repr

/-- A timer callback firing inside the polling effect: an interval tick
running `checkStatus`, or the overall `setTimeout` deadline firing. -/
inductive TimerEvent
  | tick
  | timeoutFire
deriving DecidableEq, Repr

/-- One observable action of the polling effect. -/
inductive PollAction
  | query (r : PollResponse)
  | successCb
  | failureCb
  | errorCb
  | timeoutCb
deriving DecidableEq, Repr

/-- The polling effect of `useTaskPolling.ts` run over a sequence of timer
events, with `resp n` the response to the `n`-th status query (responses
resolve before the next timer event fires).  A terminal response or a query
error fires its callback and `setTaskId(null)`, whose effect cleanup sets
`cancelled` and clears both timers, so nothing further fires; the timeout
deadline fires `onTimeout` once and likewise clears the job. -/
def pollerRun (resp : Nat → PollResponse) : Nat → List TimerEvent → List PollAction
  | _, [] => []
  | _, .timeoutFire :: _ => [.timeoutCb]
  | k, .tick :: evs =>
    match resp k with
    | .pending => .query .pending :: pollerRun resp (k + 1) evs
    | .success => [.query .success, .successCb]
    | .failure => [.query .failure, .failureCb]
    | .queryError => [.query .queryError, .errorCb]

/-- Attachment status, `status ∈ {indexing, temporary, pending_review,
promoted, failed}` from `useChatSession.ts`. -/
inductive AttachmentStatus
  | indexing
  | temporary
  | pending_review
  | promoted
  | failed
deriving DecidableEq, Repr

/-- The promotion-request metadata `{suggested_kb_doc_id, note_to_admin}`. -/
structure PromotionMetadata where
  suggested_kb_doc_id : String
  note_to_admin : String
deriving DecidableEq, Repr

/-- The `SessionAttachment` type of `useChatSession.ts` (second variant). -/
structure SessionAttachment where
  attachment_id : Nat
  filename : String
  status : AttachmentStatus
  task_id : String
  pending_review_metadata : Option PromotionMetadata := none
deriving DecidableEq, Repr

/-- The `useTaskPolling` `onSuccess` callback in `useChatSession`: map the
attachment whose `task_id` matches to status `temporary`. -/
def onIndexingSuccess (taskId : String) (atts : List SessionAttachment) :
    List SessionAttachment :=
  atts.map (fun att =>
    if att.task_id = taskId then { att with status := .temporary } else att)

/-- The `useTaskPolling` `onFailure`/`onError` callbacks in `useChatSession`:
map the attachment whose `task_id` matches to status `failed`. -/
def onIndexingFailure (taskId : String) (atts : List SessionAttachment) :
    List SessionAttachment :=
  atts.map (fun att =>
    if att.task_id = taskId then { att with status := .failed } else att)

/-- `handleRequestPromotion` success continuation: map the attachment whose
`attachment_id` matches to `pending_review` and record the metadata. -/
def applyPromotionRequest (attachmentId : Nat) (meta : PromotionMetadata)
    (atts : List SessionAttachment) : List SessionAttachment :=
  atts.map (fun att =>
    if att.attachment_id = attachmentId then
      { att with status := .pending_review, pending_review_metadata := some meta }
    else att)

/-- The optimistic entry inserted by `handleAttachFile` before the upload
request: `attachment_id = 0`, status `indexing`, placeholder task id. -/
def optimisticAttachment (tempTaskId : String) (fname : String) :
    SessionAttachment :=
  { attachment_id := 0, filename := fname, status := .indexing,
    task_id := tempTaskId }

/-- Step (1) of `handleAttachFile`: append the optimistic entry. -/
def attachOptimistic (tempTaskId : String) (fname : String)
    (atts : List SessionAttachment) : List SessionAttachment :=
  atts ++ [optimisticAttachment tempTaskId fname]

/-- Step (5) of `handleAttachFile` (upload failure): remove the optimistic
entry by filtering out the placeholder task id. -/
def attachRollback (tempTaskId : String) (atts : List SessionAttachment) :
    List SessionAttachment :=
  atts.filter (fun att => att.task_id != tempTaskId)

/-- The whole failure path of `handleAttachFile`: optimistic insertion
followed by rollback, surfacing the failure as one notification
(`notify(err ...)`). -/
def handleAttachFileFailure (atts : List SessionAttachment)
    (tempTaskId fname errMsg : String) :
    List SessionAttachment × List String :=
  (attachRollback tempTaskId (attachOptimistic tempTaskId fname atts), [errMsg])

/-- C7: if the upload fails after the optimistic insertion of the
`indexing` entry, the insertion is rolled back atomically: provided the
placeholder task id is fresh (as `temp-id-${Date.now()}` is), the attachment
list after settlement is exactly the list before the submit (first
conjunct), the failure is surfaced as one notification (second conjunct),
and if no prior entry referenced the file, zero entries reference it after
settlement (third conjunct). -/
theorem c7_upload_rollback (atts : List SessionAttachment)
    (tempTaskId fname errMsg : String)
    (hfresh : ∀ att ∈ atts, att.task_id ≠ tempTaskId) :
    (handleAttachFileFailure atts tempTaskId fname errMsg).1 = atts
    ∧ (handleAttachFileFailure atts tempTaskId fname errMsg).2 = [errMsg]
    ∧ ((∀ att ∈ atts, att.filename ≠ fname) →
        ∀ att ∈ (handleAttachFileFailure atts tempTaskId fname errMsg).1,
          att.filename ≠ fname) := by
  have hmain : (handleAttachFileFailure atts tempTaskId fname errMsg).1 = atts := by
    show attachRollback tempTaskId (attachOptimistic tempTaskId fname atts) = atts
    rw [attachRollback, attachOptimistic, List.filter_append]
    have h1 : List.filter (fun att => att.task_id != tempTaskId)
        [optimisticAttachment tempTaskId fname] = [] := by
      simp [optimisticAttachment]
    have h2 : List.filter (fun att => att.task_id != tempTaskId) atts = atts := by
      rw [List.filter_eq_self]
      intro att hatt
      simpa using hfresh att hatt
    rw [h1, h2, List.append_nil]
  refine ⟨hmain, rfl, ?_⟩
  intro hfile att hatt
  rw [hmain] at hatt
  exact hfile att hatt

/-- C7 witness: rollback at a concrete one-element attachment list. -/
theorem c7_upload_rollback_witness :
    (handleAttachFileFailure
        [{ attachment_id := 7, filename := "old.pdf", status := .temporary,
           task_id := "t-7" }] "temp-id-1" "new.pdf" "upload failed").1
      = [{ attachment_id := 7, filename := "old.pdf", status := .temporary,
           task_id := "t-7" }] :=
  (c7_upload_rollback
    [{ attachment_id := 7, filename := "old.pdf", status := .temporary,
       task_id := "t-7" }] "temp-id-1" "new.pdf" "upload failed"
    (by decide)).1

/-- The `useChatSession` reaction to the poll actions of one task: `query`
does not touch state, `successCb` maps the matching attachment to
`temporary`, `failureCb`/`errorCb` to `failed`, and `timeoutCb` does nothing
because `useChatSession` passes no `onTimeout` handler. -/
def applyPollCallbacks (taskId : String) (atts : List SessionAttachment) :
    List PollAction → List SessionAttachment
  | [] => atts
  | .query _ :: rest => applyPollCallbacks taskId atts rest
  | .successCb :: rest => applyPollCallbacks taskId (onIndexingSuccess taskId atts) rest
  | .failureCb :: rest => applyPollCallbacks taskId (onIndexingFailure taskId atts) rest
  | .errorCb :: rest => applyPollCallbacks taskId (onIndexingFailure taskId atts) rest
  | .timeoutCb :: rest => applyPollCallbacks taskId atts rest

/-- The `onTimeout` notification text passed to `useTaskPolling` by
`ContextPanel.tsx`. -/
def contextPanelTimeoutMessage : String := "인덱싱 시간이 초과되었습니다."

/-- The `onFailure` fallback notification text used by `ContextPanel.tsx`. -/
def contextPanelFailureFallback : String := "인덱싱 실패"

theorem pollerRun_all_pending (resp : Nat → PollResponse)
    (hp : ∀ n, resp n = PollResponse.pending) (evs2 : List TimerEvent) :
    ∀ (evs1 : List TimerEvent) (k : Nat), (∀ e ∈ evs1, e = TimerEvent.tick) →
      pollerRun resp k (evs1 ++ TimerEvent.timeoutFire :: evs2)
        = evs1.map (fun _ => PollAction.query .pending) ++ [PollAction.timeoutCb] := by
  intro evs1
  induction evs1 with
  | nil => intro k _; rfl
  | cons e es ih =>
    intro k ht
    have he : e = TimerEvent.tick := ht e (List.mem_cons_self e es)
    subst he
    have h1 : pollerRun resp k ((TimerEvent.tick :: es) ++ TimerEvent.timeoutFire :: evs2)
        = (match resp k with
           | .pending => PollAction.query .pending
                :: pollerRun resp (k + 1) (es ++ TimerEvent.timeoutFire :: evs2)
           | .success => [.query .success, .successCb]
           | .failure => [.query .failure, .failureCb]
           | .queryError => [.query .queryError, .errorCb]) := rfl
    rw [h1, hp k, ih (k + 1) (fun e2 he2 => ht e2 (List.mem_cons_of_mem _ he2))]
    rfl

theorem applyPollCallbacks_queries_timeout (taskId : String)
    (atts : List SessionAttachment) (evs1 : List TimerEvent) :
    applyPollCallbacks taskId atts
        (evs1.map (fun _ => PollAction.query .pending) ++ [PollAction.timeoutCb])
      = atts := by
  induction evs1 generalizing atts with
  | nil => rfl
  | cons e es ih => exact ih atts

/-- C8: when the overall polling timeout elapses before any terminal
response (all queries answer `PENDING`), the trace of the polling effect is
the pending queries followed by a single final `timeoutCb`: the timeout
callback is triggered exactly once, no status query is issued after it, the
`onFailure`/`onError` path is never invoked, applying the `useChatSession`
callbacks (which pass no `onTimeout`) leaves every attachment in its last
known state, and the `ContextPanel` timeout notification is textually
distinct from its failure notification. -/
theorem c8_poller_timeout (resp : Nat → PollResponse)
    (evs1 evs2 : List TimerEvent) (k : Nat) (taskId : String)
    (atts : List SessionAttachment)
    (hp : ∀ n, resp n = PollResponse.pending)
    (ht : ∀ e ∈ evs1, e = TimerEvent.tick) :
    pollerRun resp k (evs1 ++ TimerEvent.timeoutFire :: evs2)
        = evs1.map (fun _ => PollAction.query .pending) ++ [PollAction.timeoutCb]
    ∧ (pollerRun resp k (evs1 ++ TimerEvent.timeoutFire :: evs2)).count
        PollAction.timeoutCb = 1
    ∧ PollAction.failureCb ∉ pollerRun resp k (evs1 ++ TimerEvent.timeoutFire :: evs2)
    ∧ applyPollCallbacks taskId atts
        (pollerRun resp k (evs1 ++ TimerEvent.timeoutFire :: evs2)) = atts
    ∧ contextPanelTimeoutMessage ≠ contextPanelFailureFallback := by
  have hmain := pollerRun_all_pending resp hp evs2 evs1 k ht
  refine ⟨hmain, ?_, ?_, ?_, ?_⟩
  · rw [hmain, List.count_append]
    have hz : (evs1.map (fun _ => PollAction.query .pending)).count
        PollAction.timeoutCb = 0 := by
      rw [List.count_eq_zero]
      intro hmem
      rw [List.mem_map] at hmem
      obtain ⟨e, _, he⟩ := hmem
      exact PollAction.noConfusion he
    rw [hz]
    rfl
  · rw [hmain]
    intro hmem
    rw [List.mem_append] at hmem
    rcases hmem with hmem | hmem
    · rw [List.mem_map] at hmem
      obtain ⟨e, _, he⟩ := hmem
      exact PollAction.noConfusion he
    · rw [List.mem_singleton] at hmem
      exact PollAction.noConfusion hmem
  · rw [hmain]
    exact applyPollCallbacks_queries_timeout taskId atts evs1
  · decide

/-- C8 witness: the spec's scenario — a 2-tick timeout with two consecutive
`PENDING` responses fires the timeout callback exactly once, with no status
query after it, and leaves the `indexing` attachment untouched. -/
theorem c8_poller_timeout_witness :
    pollerRun (fun _ => PollResponse.pending) 0
        ([TimerEvent.tick, TimerEvent.tick] ++ TimerEvent.timeoutFire :: [])
      = [PollAction.query .pending, PollAction.query .pending, PollAction.timeoutCb]
    ∧ applyPollCallbacks "abc"
        [{ attachment_id := 1, filename := "a.pdf", status := .indexing,
           task_id := "abc" }]
        (pollerRun (fun _ => PollResponse.pending) 0
          ([TimerEvent.tick, TimerEvent.tick] ++ TimerEvent.timeoutFire :: []))
      = [{ attachment_id := 1, filename := "a.pdf", status := .indexing,
           task_id := "abc" }] := by
  have h := c8_poller_timeout (fun _ => PollResponse.pending)
    [TimerEvent.tick, TimerEvent.tick] [] 0 "abc"
    [{ attachment_id := 1, filename := "a.pdf", status := .indexing,
       task_id := "abc" }]
    (fun _ => rfl) (by decide)
  exact ⟨h.1, h.2.2.2.1⟩

/-- The per-attachment state as seen by the client: the `status` field plus
whether a background task for this attachment is currently registered with
the poller (its `task_id` is the poller's `currentTaskId`). -/
structure AttachmentFsm where
  status : AttachmentStatus
  polled : Bool
deriving DecidableEq, Repr

/-- The client operations that change an attachment's status, with the
circumstances under which the code invokes them:

* `startPoll` — `handleAttachFile` upload success: the entry was inserted
  with status `indexing` and `startPolling(result.task_id)` registers the
  task;
* `pollSuccess` — the `useTaskPolling` `onSuccess` callback (fires only for
  the registered task and clears it): status becomes `temporary`;
* `pollFailure` — the `onFailure`/`onError` callbacks: status becomes
  `failed`;
* `superseded` — `startPolling` for a different task overwrites the single
  `taskId` cell, so this task's effect is cleaned up without a callback;
* `promotionRequest` — `handleRequestPromotion` success: status becomes
  `pending_review`; the UI (`ChatWindow`) renders the promotion button only
  for attachments with `status === 'temporary'`. -/
inductive AttachmentStep : AttachmentFsm → AttachmentFsm → Prop
  | startPoll : AttachmentStep ⟨.indexing, false⟩ ⟨.indexing, true⟩
  | pollSuccess (st : AttachmentStatus) :
      AttachmentStep ⟨st, true⟩ ⟨.temporary, false⟩
  | pollFailure (st : AttachmentStatus) :
      AttachmentStep ⟨st, true⟩ ⟨.failed, false⟩
  | superseded (st : AttachmentStatus) :
      AttachmentStep ⟨st, true⟩ ⟨st, false⟩
  | promotionRequest (p : Bool) :
      AttachmentStep ⟨.temporary, p⟩ ⟨.pending_review, p⟩

/-- States reachable from the optimistic insertion
(`Attachment{status: indexing}`, no task registered yet). -/
inductive ReachableAtt : AttachmentFsm → Prop
  | init : ReachableAtt ⟨.indexing, false⟩
  | step {s t : AttachmentFsm} :
      ReachableAtt s → AttachmentStep s t → ReachableAtt t

/-- The transition relation asserted by the spec: one step along
`indexing → temporary → pending_review → promoted`, or the failure exits
`indexing → failed` (`pending_review → rejected` is not representable in the
client's status type — rejection removes the entry from the admin's pending
list instead). -/
def specAllowed : AttachmentStatus → AttachmentStatus → Bool
  | .indexing, .temporary => true
  | .temporary, .pending_review => true
  | .pending_review, .promoted => true
  | .indexing, .failed => true
  | _, _ => false

theorem reachable_polled_indexing {s : AttachmentFsm} (h : ReachableAtt s) :
    s.polled = true → s.status = AttachmentStatus.indexing := by
  induction h with
  | init => intro h2; exact absurd h2 (by simp)
  | step hr hstep ih =>
    cases hstep with
    | startPoll => intro _; rfl
    | pollSuccess st => intro h2; exact absurd h2 (by simp)
    | pollFailure st => intro h2; exact absurd h2 (by simp)
    | superseded st => intro h2; exact absurd h2 (by simp)
    | promotionRequest p =>
      intro h2
      have h3 := ih h2
      exact absurd h3 (by simp)

/-- C6: every status transition the client's operations perform from a
reachable state either leaves the status unchanged or is a step of the
spec's monotone path (first conjunct: in particular no transition skips a
state), and the status `promoted` is unreachable through the client's own
operations (second conjunct) — so an attachment can never reach `promoted`
without having passed through `pending_review`; `promoted` only appears via
a server-side refresh after admin approval. -/
theorem c6_attachment_monotonicity :
    (∀ s t : AttachmentFsm, ReachableAtt s → AttachmentStep s t →
        s.status = t.status ∨ specAllowed s.status t.status = true)
  ∧ (∀ s : AttachmentFsm, ReachableAtt s →
        s.status ≠ AttachmentStatus.promoted) := by
  constructor
  · intro s t hs hstep
    cases hstep with
    | startPoll => left; rfl
    | pollSuccess st =>
      right
      have h2 : st = AttachmentStatus.indexing := reachable_polled_indexing hs rfl
      rw [h2]
      rfl
    | pollFailure st =>
      right
      have h2 : st = AttachmentStatus.indexing := reachable_polled_indexing hs rfl
      rw [h2]
      rfl
    | superseded st => left; rfl
    | promotionRequest p => right; rfl
  · intro s hs
    induction hs with
    | init => simp
    | step hr hstep ih =>
      cases hstep with
      | startPoll => simp
      | pollSuccess st => simp
      | pollFailure st => simp
      | superseded st => exact ih
      | promotionRequest p => simp

/-- C6 witness: the monotonicity conjunct applied to the concrete reachable
step `pollSuccess` right after `startPoll` (the `indexing → temporary`
transition is a spec-allowed step). -/
theorem c6_attachment_monotonicity_witness :
    (⟨AttachmentStatus.indexing, true⟩ : AttachmentFsm).status
        = (⟨AttachmentStatus.temporary, false⟩ : AttachmentFsm).status
    ∨ specAllowed AttachmentStatus.indexing AttachmentStatus.temporary = true :=
  c6_attachment_monotonicity.1 ⟨.indexing, true⟩ ⟨.temporary, false⟩
    (ReachableAtt.step ReachableAtt.init AttachmentStep.startPoll)
    (AttachmentStep.pollSuccess AttachmentStatus.indexing)
